import Mathlib

/-!
Verification of the voice-assistant session controller in
`src/pages/Ai.jsx` (the `AiVoiceInterface` component).

JavaScript strings are modelled as `List Char`; all definitions are
shallow embeddings of the corresponding functions of the source file.
Side-effecting callbacks are modelled as explicit state transformers.
-/

namespace AiAssistant

/-- Convert a Lean string literal to the `List Char` model of JS strings. -/
def cs (s : String) : List Char := s.toList

/-- Characters matched by the JavaScript regex class `\s` (the common ones:
space, tab, newline, carriage return, vertical tab, form feed). -/
def isWhitespaceChar (c : Char) : Bool :=
  c = ' ' || c = '\t' || c = '\n' || c = '\r' || c = '\x0b' || c = '\x0c'

/-- `String.prototype.trim()`: remove leading and trailing whitespace. -/
def jsTrim (s : List Char) : List Char :=
  ((s.dropWhile isWhitespaceChar).reverse.dropWhile isWhitespaceChar).reverse

/-- Lowercasing of a JS string (`String.prototype.toLowerCase()` on the
ASCII fragment relevant here). -/
def toLowerList (s : List Char) : List Char := s.map Char.toLower

/-- `String.prototype.includes(needle)`: `needle` occurs as a contiguous
substring of `hay`. -/
def hasSubstr (hay needle : List Char) : Bool :=
  (List.range (hay.length + 1)).any (fun i => needle.isPrefixOf (hay.drop i))

/-- Sentence-final punctuation of the chunking regex class `[.!?]`. -/
def isSentencePunct (c : Char) : Bool :=
  c = '.' || c = '!' || c = '?'

/-- Whether the last character consumed into the current sentence is
sentence-final punctuation (the regex lookbehind `(?<=[.!?])`). -/
def headIsPunct : List Char → Bool
  | p :: _ => isSentencePunct p
  | [] => false

/-- One character step of `text.split(/(?<=[.!?])\s+/)`.  The state is
(finished sentences, current sentence in reverse, inside-separator flag):
a maximal whitespace run whose preceding character is `.`, `!` or `?`
ends the current sentence and is consumed. -/
def splitScan (st : List (List Char) × List Char × Bool) (c : Char) :
    List (List Char) × List Char × Bool :=
  match st with
  | (done, acc, true) =>
      if isWhitespaceChar c then (done, acc, true)
      else (done, [c], false)
  | (done, acc, false) =>
      if isWhitespaceChar c && headIsPunct acc then
        (done ++ [acc.reverse], [], true)
      else (done, c :: acc, false)

/-- `text.split(/(?<=[.!?])\s+/)` from `splitTextIntoChunks`
(src/pages/Ai.jsx line 565).  A string ending in a separator yields a
trailing empty sentence, and the empty string yields `[""]`, exactly as
in JavaScript. -/
def splitSentences (text : List Char) : List (List Char) :=
  let st := text.foldl splitScan ([], [], false)
  st.1 ++ [st.2.1.reverse]

/-- One `sentences.forEach` iteration of `splitTextIntoChunks`
(src/pages/Ai.jsx lines 568-575): the state is (emitted chunks, current
chunk).  Note the source compares `(currentChunk + sentence).length`,
without the joining space, against `maxLength`. -/
def chunkStepFn (maxLength : Nat) (st : List (List Char) × List Char)
    (sentence : List Char) : List (List Char) × List Char :=
  let chunks := st.1
  let currentChunk := st.2
  if (currentChunk ++ sentence).length ≤ maxLength then
    (chunks, currentChunk ++ (if currentChunk ≠ [] then [' '] else []) ++ sentence)
  else
    ((if currentChunk ≠ [] then chunks ++ [currentChunk] else chunks), sentence)

/-- `splitTextIntoChunks(text, maxLength)` (src/pages/Ai.jsx lines 563-579). -/
def splitTextIntoChunks (text : List Char) (maxLength : Nat) : List (List Char) :=
  let sentences := splitSentences text
  let st := sentences.foldl (chunkStepFn maxLength) ([], [])
  if st.2 ≠ [] then st.1 ++ [st.2] else st.1

/-- Single-space join of a list of strings, used to state what the chunking
preserves: `joinSp [s1, ..., sn] = s1 ++ " " ++ ... ++ " " ++ sn`. -/
def joinSp : List (List Char) → List Char
  | [] => []
  | [s] => s
  | s :: t :: rest => s ++ ' ' :: joinSp (t :: rest)

/-! ## Speech recognition result handling (recognition.onresult) -/

/-- One recognized alternative delivered by the recognition engine:
its transcript and whether the segment is final. -/
structure SpeechSegment where
  transcript : List Char
  segIsFinal : Bool
deriving DecidableEq

/-- Processing of one recognized segment by `recognition.onresult`
(src/pages/Ai.jsx lines 162-170): a final segment is appended to the
finalized transcript as `finalTranscript += " " + transcript`; an interim
segment leaves it unchanged. -/
def processSegment (finalTranscript : List Char) (seg : SpeechSegment) : List Char :=
  if seg.segIsFinal then finalTranscript ++ ' ' :: seg.transcript else finalTranscript

/-- The value of `finalTranscriptRef` after a sequence of recognized
segments within one capture session (the ref starts empty at capture
start, src/pages/Ai.jsx line 261). -/
def finalizedTranscript (segs : List SpeechSegment) : List Char :=
  segs.foldl processSegment []

/-! ## Fallback responder (generateFallbackResponse) -/

/-- Selection between the two canned variants of a fallback category,
modelling `responses.xxx[randomIndex]` with `randomIndex ∈ {0, 1}`. -/
def pick2 (r : Fin 2) (a b : List Char) : List Char :=
  if r.val = 0 then a else b

/-- The `time` canned response (src/pages/Ai.jsx lines 64-67); the current
clock reading `now.toLocaleTimeString()` is abstracted as `timeStr`. -/
def timeResponse (timeStr : List Char) : List Char :=
  cs "The current time is " ++ timeStr ++ cs "."

/-- The `default` echo-back responses (src/pages/Ai.jsx lines 84-87),
which quote the heard text. -/
def defaultResponse (r : Fin 2) (text : List Char) : List Char :=
  pick2 r
    (cs "I heard you say: \"" ++ text ++
      cs "\". Let\x27s continue our language practice. What topic would you like to discuss next?")
    (cs "Interesting! You mentioned \"" ++ text ++
      cs "\". What would you like to focus on next in our practice?")

/-- The `greetings` canned responses (src/pages/Ai.jsx lines 52-55). -/
def greetingResponse (r : Fin 2) : List Char :=
  pick2 r
    (cs "Hello there! I\x27m FluentMe AI, your language assistant. How can I help you today?")
    (cs "Hi! I\x27m here to help with your language practice. What would you like to work on?")

/-- The `howAreYou` canned responses (src/pages/Ai.jsx lines 56-59). -/
def howAreYouResponse (r : Fin 2) : List Char :=
  pick2 r
    (cs "I\x27m doing well, thank you for asking! How are you doing today?")
    (cs "I\x27m just a computer program, but I\x27m functioning perfectly! How about you?")

/-- The `weather` canned responses (src/pages/Ai.jsx lines 60-63). -/
def weatherResponse (r : Fin 2) : List Char :=
  pick2 r
    (cs "I don\x27t have access to real-time weather data, but I\x27d be happy to help you with language learning.")
    (cs "I\x27m not connected to weather services, but we can practice weather-related vocabulary if you\x27d like!")

/-- The `name` canned responses (src/pages/Ai.jsx lines 68-71). -/
def nameResponse (r : Fin 2) : List Char :=
  pick2 r
    (cs "My name is FluentMe AI. I\x27m your language assistant. What would you like to practice today?")
    (cs "You can call me FluentMe! I\x27m here to help you improve your language skills.")

/-- The `thanks` canned responses (src/pages/Ai.jsx lines 72-75). -/
def thanksResponse (r : Fin 2) : List Char :=
  pick2 r
    (cs "You\x27re welcome! I\x27m glad I could help. Anything else you\x27d like to practice?")
    (cs "My pleasure! What else can I help you with today?")

/-- The `help` canned responses (src/pages/Ai.jsx lines 76-79). -/
def helpResponse (r : Fin 2) : List Char :=
  pick2 r
    (cs "I\x27m here to help with your language practice! You can speak to me in any language, and I\x27ll help you improve your fluency.")
    (cs "I can help you practice conversation, vocabulary, or grammar. Just tell me what you\x27d like to work on!")

/-- The `goodbye` canned responses (src/pages/Ai.jsx lines 80-83). -/
def goodbyeResponse (r : Fin 2) : List Char :=
  pick2 r
    (cs "Goodbye! It was nice practicing with you. Feel free to return anytime for more language practice!")
    (cs "See you soon! Come back anytime you want to practice more.")

/-- `generateFallbackResponse(text)` (src/pages/Ai.jsx lines 441-465).
The pseudo-random variant index and the clock reading are passed as
explicit parameters. -/
def generateFallbackResponse (r : Fin 2) (timeStr text : List Char) : List Char :=
  let userTextLower := toLowerList text
  if hasSubstr userTextLower (cs "hello") || hasSubstr userTextLower (cs "hi") then
    greetingResponse r
  else if hasSubstr userTextLower (cs "how are you") then
    howAreYouResponse r
  else if hasSubstr userTextLower (cs "weather") then
    weatherResponse r
  else if hasSubstr userTextLower (cs "time") then
    timeResponse timeStr
  else if hasSubstr userTextLower (cs "name") then
    nameResponse r
  else if hasSubstr userTextLower (cs "thank") then
    thanksResponse r
  else if hasSubstr userTextLower (cs "help") then
    helpResponse r
  else if hasSubstr userTextLower (cs "bye") || hasSubstr userTextLower (cs "goodbye") then
    goodbyeResponse r
  else
    defaultResponse r text

/-- The ordered keyword rules of the fallback responder, written the way
the specification describes them: a fixed priority list of (keywords,
canned response) pairs, checked first to last. -/
def fallbackRules (r : Fin 2) (timeStr : List Char) : List (List (List Char) × List Char) :=
  [ ([cs "hello", cs "hi"], greetingResponse r),
    ([cs "how are you"], howAreYouResponse r),
    ([cs "weather"], weatherResponse r),
    ([cs "time"], timeResponse timeStr),
    ([cs "name"], nameResponse r),
    ([cs "thank"], thanksResponse r),
    ([cs "help"], helpResponse r),
    ([cs "bye", cs "goodbye"], goodbyeResponse r) ]

/-- First-match-wins evaluation of an ordered rule list against the
lowercased user text, with a default for when no keyword matches. -/
def firstMatch (lw : List Char) : List (List (List Char) × List Char) → List Char → List Char
  | [], dflt => dflt
  | rule :: rest, dflt =>
      if rule.1.any (fun k => hasSubstr lw k) then rule.2 else firstMatch lw rest dflt

/-! ## Remote reply cleaning (handleAiResponse success path) -/

/-- Lowercased label `assistant:` used by the cleaning regexes. -/
def assistantLabel : List Char := cs "assistant:"

/-- Lowercased label `human:` used by the turn-marker regex. -/
def humanLabel : List Char := cs "human:"

/-- `rawResponse.replace(/^Assistant:\s*/i, "")` (src/pages/Ai.jsx
line 405): strip one leading case-insensitive `Assistant:` label together
with the whitespace that follows it. -/
def stripAssistantLabel (s : List Char) : List Char :=
  if assistantLabel.isPrefixOf (toLowerList s) then
    (s.drop assistantLabel.length).dropWhile isWhitespaceChar
  else s

/-- Whether the string starts with a turn marker: a literal newline
followed, case-insensitively, by `Human:` or `Assistant:`. -/
def turnMarkerAt (s : List Char) : Bool :=
  match s with
  | '\n' :: rest =>
      humanLabel.isPrefixOf (toLowerList rest) || assistantLabel.isPrefixOf (toLowerList rest)
  | _ => false

/-- `rawResponse.search(/\n(Human|Assistant):/i)` (src/pages/Ai.jsx
line 406): index of the first turn marker, if any. -/
def findTurnIndex (s : List Char) : Option Nat :=
  (List.range s.length).find? (fun i => turnMarkerAt (s.drop i))

/-- Cleaning of a successful remote generation (src/pages/Ai.jsx lines
403-409): trim, strip a leading `Assistant:` label, then truncate at
the first turn marker and trim the truncated text. -/
def cleanResponse (raw : List Char) : List Char :=
  let r1 := jsTrim raw
  let r2 := stripAssistantLabel r1
  match findTurnIndex r2 with
  | some i => jsTrim (r2.take i)
  | none => r2

/-- The cleaning pipeline exactly as the claim words it (for comparison
with `cleanResponse`): trim, strip the label, truncate at the first turn
marker — with no further trimming of the truncated text. -/
def cleanResponseClaimed (raw : List Char) : List Char :=
  let r1 := jsTrim raw
  let r2 := stripAssistantLabel r1
  match findTurnIndex r2 with
  | some i => r2.take i
  | none => r2

/-! ## Response resolution (handleAiResponse remote/fallback chain) -/

/-- The environment of one response resolution: whether the remote client
initialized (`hf.current` non-null), the outcome of each of the three
remote model attempts (`some` generated text or `none` for a per-model
failure), the pseudo-random variant index, and the clock reading. -/
structure Env where
  hfClient : Bool
  remoteResults : List (Option (List Char))
  randomIndex : Fin 2
  timeStr : List Char

/-- First successful remote model outcome, modelling the
`for (const model of models)` loop with `break` on success
(src/pages/Ai.jsx lines 385-401). -/
def firstSuccess : List (Option (List Char)) → Option (List Char)
  | [] => none
  | some r :: _ => some r
  | none :: rest => firstSuccess rest

/-- The reply produced by `handleAiResponse` (src/pages/Ai.jsx lines
377-419): with no remote client, the fallback responder; otherwise the
cleaned first successful remote generation, falling back to the fallback
responder when all three models fail.  The prompt is passed to the remote
service, whose outcomes are abstracted in `env`. -/
def resolveResponse (env : Env) (_prompt text : List Char) : List Char :=
  if env.hfClient then
    match firstSuccess env.remoteResults with
    | some raw => cleanResponse raw
    | none => generateFallbackResponse env.randomIndex env.timeStr text
  else
    generateFallbackResponse env.randomIndex env.timeStr text

/-! ## Dialogue manager state (handleAiResponse / handleEndConversation) -/

/-- Role of a conversation history entry. -/
inductive Role where
  | user
  | assistant
deriving DecidableEq

/-- One conversation history entry `{role, content}`. -/
structure ChatMessage where
  role : Role
  content : List Char
deriving DecidableEq

/-- Last `n` elements of a list, modelling `Array.prototype.slice(-n)`. -/
def takeLast (n : Nat) (l : List α) : List α := l.drop (l.length - n)

/-- Label used when formatting a history entry into the prompt. -/
def roleLabel : Role → List Char
  | .user => cs "Human"
  | .assistant => cs "Assistant"

/-- Newline join of formatted messages. -/
def joinNl : List (List Char) → List Char
  | [] => []
  | [s] => s
  | s :: t :: rest => s ++ '\n' :: joinNl (t :: rest)

/-- Prompt construction (src/pages/Ai.jsx lines 372-375): the last 4
history entries formatted as `Human:`/`Assistant:` lines, terminated by
a trailing `Assistant:` cue. -/
def buildPrompt (msgs : List ChatMessage) : List Char :=
  joinNl (msgs.map (fun m => roleLabel m.role ++ ':' :: ' ' :: m.content)) ++
    '\n' :: cs "Assistant:"

/-- The component state touched by the dialogue manager. -/
structure AiState where
  confirmingEnd : Bool
  showEndConvo : Bool
  conversationHistory : List ChatMessage
  userText : List Char
  aiText : List Char
  isProcessing : Bool
deriving DecidableEq

/-- `handleEndConversation()` (src/pages/Ai.jsx lines 582-601): first
call arms the confirmation; with `confirmingEnd` already true it clears
the history, both texts, the confirmation flag and the end-conversation
offer flag. -/
def handleEndConversation (s : AiState) : AiState :=
  if !s.confirmingEnd then
    { s with confirmingEnd := true,
             aiText := cs "Are you sure you want to end this conversation? All history will be cleared." }
  else
    { s with conversationHistory := [], userText := [], aiText := [],
             confirmingEnd := false, showEndConvo := false }

/-- `cancelEndConversation()` (src/pages/Ai.jsx lines 603-608). -/
def cancelEndConversation (s : AiState) : AiState :=
  { s with confirmingEnd := false,
           aiText := cs "Conversation continued. What would you like to talk about next?" }

/-- `handleAiResponse(text)` (src/pages/Ai.jsx lines 344-438) as a state
transformer: the exit-confirmation sub-protocol, the empty-text early
return, then history update, prompt construction, response resolution and
re-windowing of the history.  `MAX_CONVERSATION_HISTORY = 10`. -/
def handleAiResponse (env : Env) (s : AiState) (text : List Char) : AiState :=
  let normalizedText := toLowerList text
  if s.confirmingEnd &&
      (hasSubstr normalizedText (cs "yes") || hasSubstr normalizedText (cs "confirm")) then
    handleEndConversation s
  else if s.confirmingEnd &&
      (hasSubstr normalizedText (cs "no") || hasSubstr normalizedText (cs "cancel")) then
    cancelEndConversation s
  else if text = [] then
    { s with isProcessing := false }
  else
    let updatedHistory := takeLast 9 s.conversationHistory ++ [⟨.user, text⟩]
    let prompt := buildPrompt (takeLast 4 updatedHistory)
    let aiResponse := resolveResponse env prompt text
    let newHistory := updatedHistory ++ [⟨.assistant, aiResponse⟩]
    { s with conversationHistory := takeLast 10 newHistory,
             aiText := aiResponse, isProcessing := false }

/-! ## Capture stop (stopListening) -/

/-- The session state read and written by `stopListening`.
`recognitionActive` models the conjunction
`speechRecognitionRef.current && recognitionActiveRef.current`. -/
structure CaptureState where
  recognitionActive : Bool
  isListening : Bool
  isProcessing : Bool
  pauseTimerArmed : Bool
  finalTranscript : List Char
  autoListenMode : Bool
  isMobile : Bool
deriving DecidableEq

/-- Result of one `stopListening()` call: the updated state, the
transcript handed to `handleAiResponse` if any, and the delay of a
scheduled `startListening` restart if any. -/
structure StopOutcome where
  state : CaptureState
  handedTranscript : Option (List Char)
  restartDelayMs : Option Nat
deriving DecidableEq

/-- `stopListening()` (src/pages/Ai.jsx lines 292-321).  With an active
recognition session it stops the engine, clears the pause timer, and
either hands off a non-empty trimmed transcript (setting `processing`)
or — desktop with auto-listen only — schedules a 1s restart.  With no
active session it only clears `listening` and performs the hand-off. -/
def stopListening (s : CaptureState) : StopOutcome :=
  if s.recognitionActive then
    let s1 := { s with recognitionActive := false, isListening := false,
                       pauseTimerArmed := false }
    if jsTrim s.finalTranscript ≠ [] then
      ⟨{ s1 with isProcessing := true }, some (jsTrim s.finalTranscript), none⟩
    else if s.autoListenMode && !s.isMobile then
      ⟨s1, none, some 1000⟩
    else
      ⟨s1, none, none⟩
  else
    let s1 := { s with isListening := false }
    if jsTrim s.finalTranscript ≠ [] then
      ⟨{ s1 with isProcessing := true }, some (jsTrim s.finalTranscript), none⟩
    else
      ⟨s1, none, none⟩

/-! ## Chunked playback (speakNextChunk) -/

/-- Completion events a synthesis utterance can emit. -/
inductive ChunkEvent where
  | ended
  | errored
deriving DecidableEq

/-- Result of one `speakNextChunk()` call: the chunk index it reads,
whether `isSpeaking` remains set, and the chunk handed to the synthesis
engine, if any. -/
structure ChunkAdvance where
  chunkIndex : Nat
  speaking : Bool
  spoken : Option (List Char)
deriving DecidableEq

/-- `speakNextChunk()` (src/pages/Ai.jsx lines 530-554): with chunks
remaining it speaks `chunks[currentChunk]`, leaving `isSpeaking` as it
was (true during chunked playback); past the last chunk it sets
`isSpeaking` to false. -/
def speakNextChunk (chunks : List (List Char)) (currentChunk : Nat)
    (speaking : Bool) : ChunkAdvance :=
  if currentChunk < chunks.length then
    ⟨currentChunk, speaking, chunks[currentChunk]?⟩
  else
    ⟨currentChunk, false, none⟩

/-- The `onend`/`onerror` handler of a chunk utterance (src/pages/Ai.jsx
lines 539-548): both increment `currentChunk` and call `speakNextChunk`
again; the event kind is not consulted. -/
def onChunkEvent (chunks : List (List Char)) (currentChunk : Nat)
    (speaking : Bool) (_e : ChunkEvent) : ChunkAdvance :=
  speakNextChunk chunks (currentChunk + 1) speaking

/-! ## Helper lemmas -/

lemma joinSp_cons_of_ne (a : List Char) (l : List (List Char)) (h : l ≠ []) :
    joinSp (a :: l) = a ++ ' ' :: joinSp l := by
  cases l with
  | nil => exact absurd rfl h
  | cons b t => rfl

lemma joinSp_glue (a b : List Char) (l : List (List Char)) :
    joinSp ((a ++ ' ' :: b) :: l) = joinSp (a :: b :: l) := by
  cases l with
  | nil => rfl
  | cons x t =>
      rw [joinSp_cons_of_ne _ (x :: t) (by simp),
          joinSp_cons_of_ne a (b :: x :: t) (by simp),
          joinSp_cons_of_ne b (x :: t) (by simp)]
      simp

lemma joinSp_append_glue (l1 : List (List Char)) (a b : List Char)
    (l2 : List (List Char)) :
    joinSp (l1 ++ (a ++ ' ' :: b) :: l2) = joinSp (l1 ++ a :: b :: l2) := by
  induction l1 with
  | nil => simpa using joinSp_glue a b l2
  | cons x xs ih =>
      rw [List.cons_append, List.cons_append,
          joinSp_cons_of_ne x _ (by simp), joinSp_cons_of_ne x _ (by simp), ih]

/-- A fold step with an empty current chunk leaves the emitted chunks
alone and makes the sentence the current chunk, in both branches. -/
lemma chunkStepFn_nil (L : Nat) (chunks : List (List Char)) (s : List Char) :
    chunkStepFn L (chunks, []) s = (chunks, s) := by
  simp only [chunkStepFn]
  split <;> simp

/-- A fold step with a non-empty current chunk, with the branch test
written out. -/
lemma chunkStepFn_of_ne (L : Nat) (chunks : List (List Char)) (cur s : List Char)
    (hcur : cur ≠ []) :
    chunkStepFn L (chunks, cur) s =
      if (cur ++ s).length ≤ L then (chunks, cur ++ ' ' :: s)
      else (chunks ++ [cur], s) := by
  simp only [chunkStepFn]
  split <;> simp [hcur]

/-- Invariant of the chunking fold used for the reassembly property:
starting from a non-empty current chunk, the final chunk is non-empty and
the single-space join of all chunks equals the join of the pending chunks
with the remaining sentences. -/
lemma chunkFold_join (L : Nat) :
    ∀ (sents : List (List Char)) (chunks : List (List Char)) (cur : List Char),
      cur ≠ [] → (∀ s ∈ sents, s ≠ []) →
      (sents.foldl (chunkStepFn L) (chunks, cur)).2 ≠ [] ∧
        joinSp ((sents.foldl (chunkStepFn L) (chunks, cur)).1 ++
            [(sents.foldl (chunkStepFn L) (chunks, cur)).2]) =
          joinSp (chunks ++ cur :: sents) := by
  intro sents
  induction sents with
  | nil => intro chunks cur hcur _; exact ⟨hcur, rfl⟩
  | cons s ss ih =>
      intro chunks cur hcur hne
      have hs : s ≠ [] := hne s (by simp)
      have hss : ∀ x ∈ ss, x ≠ [] := fun x hx => hne x (by simp [hx])
      rw [List.foldl_cons, chunkStepFn_of_ne L chunks cur s hcur]
      by_cases hlen : (cur ++ s).length ≤ L
      · -- merge branch: cur' = cur ++ ' ' :: s
        rw [if_pos hlen]
        have h2 := ih chunks (cur ++ ' ' :: s) (by simp) hss
        refine ⟨h2.1, ?_⟩
        rw [h2.2, joinSp_append_glue]
      · -- push branch: chunks' = chunks ++ [cur], cur' = s
        rw [if_neg hlen]
        have h2 := ih (chunks ++ [cur]) s hs hss
        refine ⟨h2.1, ?_⟩
        rw [h2.2]
        simp

/-- Invariant of the chunking fold used for the length bound: every
emitted chunk, and the pending chunk, is short (at most `L + 1`) or is a
single over-long sentence of `S`. -/
lemma chunkFold_bound (L : Nat) (S : List (List Char)) :
    ∀ (sents : List (List Char)) (chunks : List (List Char)) (cur : List Char),
      (∀ s ∈ sents, s ∈ S) →
      (∀ c ∈ chunks, c.length ≤ L + 1 ∨ (L < c.length ∧ c ∈ S)) →
      (cur = [] ∨ cur.length ≤ L + 1 ∨ (L < cur.length ∧ cur ∈ S)) →
      (∀ c ∈ (sents.foldl (chunkStepFn L) (chunks, cur)).1,
        c.length ≤ L + 1 ∨ (L < c.length ∧ c ∈ S)) ∧
      ((sents.foldl (chunkStepFn L) (chunks, cur)).2 = [] ∨
        (sents.foldl (chunkStepFn L) (chunks, cur)).2.length ≤ L + 1 ∨
        (L < (sents.foldl (chunkStepFn L) (chunks, cur)).2.length ∧
          (sents.foldl (chunkStepFn L) (chunks, cur)).2 ∈ S)) := by
  intro sents
  induction sents with
  | nil => intro chunks cur _ hch hcur; exact ⟨hch, hcur⟩
  | cons s ss ih =>
      intro chunks cur hmem hch hcur
      have hsS : s ∈ S := hmem s (by simp)
      have hssS : ∀ x ∈ ss, x ∈ S := fun x hx => hmem x (by simp [hx])
      have hsQ : s = [] ∨ s.length ≤ L + 1 ∨ (L < s.length ∧ s ∈ S) := by
        by_cases hsL : s.length ≤ L + 1
        · right; left; exact hsL
        · right; right; exact ⟨by omega, hsS⟩
      rw [List.foldl_cons]
      by_cases hc0 : cur = []
      · rw [hc0, chunkStepFn_nil]
        exact ih _ _ hssS hch hsQ
      · rw [chunkStepFn_of_ne L chunks cur s hc0]
        by_cases hlen : (cur ++ s).length ≤ L
        · -- merge branch
          rw [if_pos hlen]
          apply ih _ _ hssS hch
          right; left
          simp only [List.length_append] at hlen ⊢
          simp only [List.length_cons]
          omega
        · -- push branch
          rw [if_neg hlen]
          apply ih _ _ hssS _ hsQ
          intro c hc
          rcases List.mem_append.1 hc with hc | hc
          · exact hch c hc
          · have : c = cur := by simpa using hc
            subst this
            rcases hcur with h | h
            · exact absurd h hc0
            · exact h

/-- The chunking fold never emits an empty chunk. -/
lemma chunkFold_ne (L : Nat) :
    ∀ (sents : List (List Char)) (chunks : List (List Char)) (cur : List Char),
      (∀ c ∈ chunks, c ≠ []) →
      (∀ c ∈ (sents.foldl (chunkStepFn L) (chunks, cur)).1, c ≠ []) := by
  intro sents
  induction sents with
  | nil => intro chunks cur hch; exact hch
  | cons s ss ih =>
      intro chunks cur hch
      rw [List.foldl_cons]
      by_cases hc0 : cur = []
      · rw [hc0, chunkStepFn_nil]
        exact ih _ _ hch
      · rw [chunkStepFn_of_ne L chunks cur s hc0]
        by_cases hlen : (cur ++ s).length ≤ L
        · rw [if_pos hlen]
          exact ih _ _ hch
        · rw [if_neg hlen]
          apply ih
          intro c hc
          rcases List.mem_append.1 hc with hc | hc
          · exact hch c hc
          · have : c = cur := by simpa using hc
            subst this; exact hc0

/-- The sentence split always returns at least one sentence. -/
lemma splitSentences_ne_nil (text : List Char) : splitSentences text ≠ [] := by
  unfold splitSentences
  simp

/-! ## Claim theorems -/

/-- C1 counterexample: the claim "no chunk exceeds L characters unless a
single sentence alone exceeds L" fails on `"abc. de."` with `L = 7`: the
source compares `(currentChunk + sentence).length` without counting the
joining space, so the two sentences (of lengths 4 and 3) are merged into
the single chunk `"abc. de."` of length 8, although every sentence has
length at most 7. -/
theorem C1_chunk_length_counterexample :
    ∃ c ∈ splitTextIntoChunks (cs "abc. de.") 7,
      7 < c.length ∧ ∀ s ∈ splitSentences (cs "abc. de."), s.length ≤ 7 := by
  decide

/-- C1 (amended): for every text whose sentences are all non-empty, the
single-space join of the produced chunks reproduces the single-space join
of the text's sentence sequence; and every chunk has length at most
`L + 1`, except a chunk that is itself a single sentence longer than `L`. -/
theorem C1_splitTextIntoChunks_amended (text : List Char) (L : Nat) :
    ((∀ s ∈ splitSentences text, s ≠ []) →
      joinSp (splitTextIntoChunks text L) = joinSp (splitSentences text)) ∧
    (∀ c ∈ splitTextIntoChunks text L,
      c.length ≤ L + 1 ∨ (L < c.length ∧ c ∈ splitSentences text)) := by
  constructor
  · intro hne
    obtain ⟨s1, rest, hsr⟩ := List.exists_cons_of_ne_nil (splitSentences_ne_nil text)
    have hs1 : s1 ≠ [] := hne s1 (by rw [hsr]; simp)
    have hrest : ∀ x ∈ rest, x ≠ [] := fun x hx => hne x (by rw [hsr]; simp [hx])
    have hfold := chunkFold_join L rest [] s1 hs1 hrest
    simp only [splitTextIntoChunks]
    rw [hsr, List.foldl_cons, chunkStepFn_nil, if_pos hfold.1, hfold.2]
    simp
  · intro c hc
    have hfold := chunkFold_bound L (splitSentences text) (splitSentences text)
      [] [] (fun _ hs => hs) (by simp) (Or.inl rfl)
    simp only [splitTextIntoChunks] at hc
    by_cases h2 : ((splitSentences text).foldl (chunkStepFn L) ([], [])).2 = []
    · rw [if_neg (by simp [h2])] at hc
      exact hfold.1 c hc
    · rw [if_pos h2] at hc
      rcases List.mem_append.1 hc with hc | hc
      · exact hfold.1 c hc
      · have hc2 : c = ((splitSentences text).foldl (chunkStepFn L) ([], [])).2 := by
          simpa using hc
        subst hc2
        rcases hfold.2 with h | h
        · exact absurd h h2
        · exact h

/-- C1 witness: the amended theorem applied at the counterexample text. -/
theorem C1_splitTextIntoChunks_amended_witness :
    joinSp (splitTextIntoChunks (cs "abc. de.") 7) =
      joinSp (splitSentences (cs "abc. de.")) ∧
    ((cs "abc. de.").length ≤ 8 ∨
      (7 < (cs "abc. de.").length ∧ cs "abc. de." ∈ splitSentences (cs "abc. de."))) :=
  ⟨(C1_splitTextIntoChunks_amended (cs "abc. de.") 7).1 (by decide),
   (C1_splitTextIntoChunks_amended (cs "abc. de.") 7).2 (cs "abc. de.") (by decide)⟩

/-- C10: splitting the empty string produces no chunks, and no produced
chunk is ever the empty string. -/
theorem C10_splitTextIntoChunks_nonempty :
    (∀ L, splitTextIntoChunks [] L = []) ∧
    (∀ (text : List Char) (L : Nat), ∀ c ∈ splitTextIntoChunks text L, c ≠ []) := by
  constructor
  · intro L
    simp only [splitTextIntoChunks, splitSentences, List.foldl_nil, List.nil_append,
      List.reverse_nil]
    rw [List.foldl_cons, chunkStepFn_nil, List.foldl_nil]
    simp
  · intro text L c hc
    have h1 := chunkFold_ne L (splitSentences text) [] [] (by simp)
    simp only [splitTextIntoChunks] at hc
    by_cases h2 : ((splitSentences text).foldl (chunkStepFn L) ([], [])).2 = []
    · rw [if_neg (by simp [h2])] at hc
      exact h1 c hc
    · rw [if_pos h2] at hc
      rcases List.mem_append.1 hc with hc | hc
      · exact h1 c hc
      · have hc2 : c = ((splitSentences text).foldl (chunkStepFn L) ([], [])).2 := by
          simpa using hc
        subst hc2; exact h2

/-- C10 witness: the theorem applied at concrete inputs. -/
theorem C10_splitTextIntoChunks_nonempty_witness :
    splitTextIntoChunks [] 5 = [] ∧ cs "ab." ≠ [] :=
  ⟨C10_splitTextIntoChunks_nonempty.1 5,
   C10_splitTextIntoChunks_nonempty.2 (cs "ab. cd.") 3 (cs "ab.") (by decide)⟩

/-- The transcript fold appends one space-prefixed transcript per final
segment after any starting accumulator. -/
lemma finalized_foldl (segs : List SpeechSegment) :
    ∀ acc, segs.foldl processSegment acc =
      acc ++ ((segs.filter (fun s => s.segIsFinal)).map
        (fun s => ' ' :: s.transcript)).flatten := by
  induction segs with
  | nil => intro acc; simp
  | cons s t ih =>
      intro acc
      rw [List.foldl_cons, ih]
      by_cases h : s.segIsFinal
      · simp [processSegment, h, List.filter_cons]
      · simp [processSegment, h, List.filter_cons]

/-- C3 counterexample: after a single final segment `"hi"`, the stored
`finalTranscriptRef` is `" hi"` (the handler always prepends a space),
not the space-join `"hi"` of the final segments. -/
theorem C3_finalizedTranscript_counterexample :
    finalizedTranscript [⟨cs "hi", true⟩] = cs " hi" ∧
    joinSp (([(⟨cs "hi", true⟩ : SpeechSegment)].filter
      (fun s => s.segIsFinal)).map (fun s => s.transcript)) = cs "hi" ∧
    finalizedTranscript [⟨cs "hi", true⟩] ≠
      joinSp (([(⟨cs "hi", true⟩ : SpeechSegment)].filter
        (fun s => s.segIsFinal)).map (fun s => s.transcript)) := by
  decide

/-- C3 (amended): within one capture session, `finalizedTranscript`
equals the concatenation, in arrival order, of one space followed by each
segment flagged final (the space-join preceded by one leading space when
any final segment exists); processing an interim segment leaves it
unchanged. -/
theorem C3_finalizedTranscript_amended (segs : List SpeechSegment) :
    finalizedTranscript segs =
      ((segs.filter (fun s => s.segIsFinal)).map
        (fun s => ' ' :: s.transcript)).flatten ∧
    ∀ (f : List Char) (seg : SpeechSegment), seg.segIsFinal = false →
      processSegment f seg = f := by
  constructor
  · simpa using finalized_foldl segs []
  · intro f seg h
    simp [processSegment, h]

/-- C3 witness: the amended theorem applied at a concrete event sequence. -/
theorem C3_finalizedTranscript_amended_witness :
    finalizedTranscript [⟨cs "hi", true⟩, ⟨cs "there", false⟩] =
      (([⟨cs "hi", true⟩, (⟨cs "there", false⟩ : SpeechSegment)].filter
        (fun s => s.segIsFinal)).map (fun s => ' ' :: s.transcript)).flatten ∧
    processSegment (cs " hi") ⟨cs "there", false⟩ = cs " hi" :=
  ⟨(C3_finalizedTranscript_amended [⟨cs "hi", true⟩, ⟨cs "there", false⟩]).1,
   (C3_finalizedTranscript_amended []).2 (cs " hi") ⟨cs "there", false⟩ rfl⟩

/-! ## History window lemmas -/

lemma takeLast_length_le (n : Nat) (l : List α) : (takeLast n l).length ≤ n := by
  simp only [takeLast, List.length_drop]
  omega

/-- Sliding the 9-window before appending the two new messages gives the
same result as windowing the full appended history to 10. -/
lemma takeLast_window (h : List α) (u a : α) :
    takeLast 10 (takeLast 9 h ++ [u, a]) = takeLast 10 (h ++ [u, a]) := by
  simp only [takeLast, List.length_append, List.length_drop, List.length_cons,
    List.length_nil]
  rw [List.drop_append_of_le_length (by simp only [List.length_drop]; omega),
      List.drop_append_of_le_length (by omega), List.drop_drop]
  congr 2
  omega

/-- C2: after any submit of a non-empty transcript from a history of at
most 10 entries, the stored history has at most 10 entries; outside the
exit-confirmation sub-protocol it equals the 10-entry sliding window of
the old history with the just-appended user message and the assistant
reply, so the newest entries are preserved and only the oldest beyond 10
are dropped. -/
theorem C2_history_window (env : Env) (s : AiState) (text : List Char)
    (hlen : s.conversationHistory.length ≤ 10) (htext : text ≠ []) :
    (handleAiResponse env s text).conversationHistory.length ≤ 10 ∧
    (s.confirmingEnd = false →
      ∃ reply, (handleAiResponse env s text).conversationHistory =
        takeLast 10 (s.conversationHistory ++
          [⟨.user, text⟩, ⟨.assistant, reply⟩])) := by
  constructor
  · simp only [handleAiResponse]
    split
    · -- confirmed exit: history cleared or confirmation armed
      simp only [handleEndConversation]
      split
      · simpa using hlen
      · simp
    · split
      · -- cancelled exit: history unchanged
        simpa [cancelEndConversation] using hlen
      · simpa using takeLast_length_le 10 _
  · intro hconf
    have hc1 : (s.confirmingEnd && (hasSubstr (toLowerList text) (cs "yes") ||
        hasSubstr (toLowerList text) (cs "confirm"))) = false := by
      simp [hconf]
    have hc2 : (s.confirmingEnd && (hasSubstr (toLowerList text) (cs "no") ||
        hasSubstr (toLowerList text) (cs "cancel"))) = false := by
      simp [hconf]
    refine ⟨resolveResponse env
      (buildPrompt (takeLast 4 (takeLast 9 s.conversationHistory ++
        [⟨.user, text⟩]))) text, ?_⟩
    simp only [handleAiResponse, hc1, hc2, Bool.false_eq_true, if_false,
      if_neg htext]
    rw [List.append_assoc]
    exact takeLast_window s.conversationHistory _ _

/-- C2 witness: a concrete submit from a full 10-entry history. -/
theorem C2_history_window_witness :
    (handleAiResponse ⟨false, [], ⟨0, by decide⟩, []⟩
      ⟨false, true, List.replicate 10 ⟨.user, cs "x"⟩, [], [], true⟩
      (cs "hey")).conversationHistory.length ≤ 10 :=
  (C2_history_window ⟨false, [], ⟨0, by decide⟩, []⟩
    ⟨false, true, List.replicate 10 ⟨.user, cs "x"⟩, [], [], true⟩
    (cs "hey") (by decide) (by decide)).1

/-- C8: while awaiting exit confirmation, a submitted text containing
"yes" (case-insensitively) takes the confirmation path — the state is
exactly `handleEndConversation` of the current state, so the history is
cleared, `confirmingEnd` is reset and the end-conversation offer flag is
cleared, and normal dialogue handling never runs. -/
theorem C8_exit_confirmation (env : Env) (s : AiState) (text : List Char)
    (hconf : s.confirmingEnd = true)
    (hyes : hasSubstr (toLowerList text) (cs "yes") = true) :
    handleAiResponse env s text = handleEndConversation s ∧
    (handleAiResponse env s text).conversationHistory = [] ∧
    (handleAiResponse env s text).confirmingEnd = false ∧
    (handleAiResponse env s text).showEndConvo = false := by
  have hcond : (s.confirmingEnd && (hasSubstr (toLowerList text) (cs "yes") ||
      hasSubstr (toLowerList text) (cs "confirm"))) = true := by
    rw [hconf, hyes]; simp
  have h1 : handleAiResponse env s text = handleEndConversation s := by
    simp only [handleAiResponse]
    rw [if_pos hcond]
  have h2 : handleEndConversation s =
      { s with conversationHistory := [], userText := [], aiText := [],
               confirmingEnd := false, showEndConvo := false } := by
    simp [handleEndConversation, hconf]
  exact ⟨h1, by rw [h1, h2], by rw [h1, h2], by rw [h1, h2]⟩

/-- C8 witness: a concrete confirmation-pending state and a "yes, please"
utterance. -/
theorem C8_exit_confirmation_witness :
    (handleAiResponse ⟨true, [some (cs "ok")], ⟨1, by decide⟩, []⟩
      ⟨true, true, [⟨.user, cs "x"⟩], cs "u", cs "a", true⟩
      (cs "yes, please")).conversationHistory = [] ∧
    (handleAiResponse ⟨true, [some (cs "ok")], ⟨1, by decide⟩, []⟩
      ⟨true, true, [⟨.user, cs "x"⟩], cs "u", cs "a", true⟩
      (cs "yes, please")).confirmingEnd = false ∧
    (handleAiResponse ⟨true, [some (cs "ok")], ⟨1, by decide⟩, []⟩
      ⟨true, true, [⟨.user, cs "x"⟩], cs "u", cs "a", true⟩
      (cs "yes, please")).showEndConvo = false :=
  (C8_exit_confirmation ⟨true, [some (cs "ok")], ⟨1, by decide⟩, []⟩
    ⟨true, true, [⟨.user, cs "x"⟩], cs "u", cs "a", true⟩
    (cs "yes, please") rfl (by decide)).2

/-- C4: with no remote client (`hf.current` null), the response resolution
returns exactly the fallback responder's output for the raw text.  The
embedding is a total function, so this path cannot raise. -/
theorem C4_resolve_fallback (env : Env) (prompt text : List Char)
    (hunavail : env.hfClient = false) (_htext : text ≠ []) :
    resolveResponse env prompt text =
      generateFallbackResponse env.randomIndex env.timeStr text := by
  simp [resolveResponse, hunavail]

/-- C4 witness: a concrete resolution with the remote service unavailable. -/
theorem C4_resolve_fallback_witness :
    resolveResponse ⟨false, [], ⟨0, by decide⟩, cs "3:04 PM"⟩ [] (cs "hello") =
      generateFallbackResponse ⟨0, by decide⟩ (cs "3:04 PM") (cs "hello") :=
  C4_resolve_fallback ⟨false, [], ⟨0, by decide⟩, cs "3:04 PM"⟩ [] (cs "hello")
    rfl (by decide)

/-- C5 counterexample: when `stopListening` runs while no recognition
session is active (reachable: `startListening` arms the pause timer
before the engine's `onstart` callback has set the active flag), the
pause timer is NOT cleared, and no 1-second restart is scheduled even on
the full platform with an empty transcript. -/
theorem C5_stopListening_counterexample :
    (stopListening ⟨false, true, false, true, [], true, false⟩).state.pauseTimerArmed
        = true ∧
    (stopListening ⟨false, true, false, true, [], true, false⟩).restartDelayMs
        = none := by
  decide

/-- C5 (amended): `stopListening` always clears `listening`; with an
active session it also clears the pause timer and the active flag, while
with no active session the pause timer is left as it was; a non-empty
trimmed transcript sets `processing` and is handed to the dialogue
manager; with an empty transcript a 1-second restart is scheduled exactly
when a session was active, auto-listen mode is on and the platform is
full. -/
theorem C5_stopListening_amended (s : CaptureState) :
    (stopListening s).state.isListening = false ∧
    (s.recognitionActive = true →
      (stopListening s).state.pauseTimerArmed = false ∧
      (stopListening s).state.recognitionActive = false) ∧
    (s.recognitionActive = false →
      (stopListening s).state.pauseTimerArmed = s.pauseTimerArmed) ∧
    (jsTrim s.finalTranscript ≠ [] →
      (stopListening s).state.isProcessing = true ∧
      (stopListening s).handedTranscript = some (jsTrim s.finalTranscript) ∧
      (stopListening s).restartDelayMs = none) ∧
    (jsTrim s.finalTranscript = [] →
      (stopListening s).handedTranscript = none ∧
      ((stopListening s).restartDelayMs = some 1000 ↔
        s.recognitionActive = true ∧ s.autoListenMode = true ∧
          s.isMobile = false)) := by
  rcases s with ⟨ra, il, ip, pt, ft, al, im⟩
  by_cases hft : jsTrim ft = []
  · cases ra <;> cases al <;> cases im <;> simp [stopListening, hft]
  · cases ra <;> simp [stopListening, hft]

/-- C5 witness: a concrete active-session stop with a pending transcript. -/
theorem C5_stopListening_amended_witness :
    (stopListening ⟨true, true, false, true, cs " hi", true, false⟩).state.isProcessing
        = true ∧
    (stopListening ⟨true, true, false, true, cs " hi", true, false⟩).handedTranscript
        = some (jsTrim (cs " hi")) ∧
    (stopListening ⟨true, true, false, true, cs " hi", true, false⟩).restartDelayMs
        = none :=
  (C5_stopListening_amended ⟨true, true, false, true, cs " hi", true, false⟩).2.2.2.1
    (by decide)

/-- C6 counterexample: for the generated text `"hi \nHuman: no"`, the code
additionally trims the truncated text (`substring(0, idx).trim()`),
producing `"hi"`, while the claim's pipeline (trim, strip label, truncate
at the turn marker, nothing else) produces `"hi "`. -/
theorem C6_cleanResponse_counterexample :
    cleanResponse (cs "hi \nHuman: no") = cs "hi" ∧
    cleanResponseClaimed (cs "hi \nHuman: no") = cs "hi " ∧
    cleanResponse (cs "hi \nHuman: no") ≠
      cleanResponseClaimed (cs "hi \nHuman: no") := by
  decide

/-- C6 (amended): for every successful remote generation, the published
reply is the cleaning of the raw generated text, where the cleaning
trims, strips one leading case-insensitive `Assistant:` label (with its
following whitespace), and — when a newline followed case-insensitively
by `Human:` or `Assistant:` occurs — truncates there and trims the
truncated text; with no such occurrence the stripped trimmed text is
returned unchanged. -/
theorem C6_cleanResponse_amended (env : Env) (prompt text raw : List Char)
    (hclient : env.hfClient = true)
    (hfirst : firstSuccess env.remoteResults = some raw) :
    resolveResponse env prompt text = cleanResponse raw ∧
    (findTurnIndex (stripAssistantLabel (jsTrim raw)) = none →
      cleanResponse raw = stripAssistantLabel (jsTrim raw)) ∧
    (∀ i, findTurnIndex (stripAssistantLabel (jsTrim raw)) = some i →
      cleanResponse raw = jsTrim ((stripAssistantLabel (jsTrim raw)).take i)) := by
  refine ⟨?_, ?_, ?_⟩
  · simp [resolveResponse, hclient, hfirst]
  · intro hnone
    simp [cleanResponse, hnone]
  · intro i hsome
    simp [cleanResponse, hsome]

/-- C6 witness: a concrete successful generation with a label and a
hallucinated next turn. -/
theorem C6_cleanResponse_amended_witness :
    resolveResponse ⟨true, [some (cs "Assistant: hi \nHuman: no")], ⟨0, by decide⟩, []⟩
        [] (cs "q") =
      cleanResponse (cs "Assistant: hi \nHuman: no") ∧
    cleanResponse (cs "Assistant: hi \nHuman: no") =
      jsTrim ((stripAssistantLabel (jsTrim (cs "Assistant: hi \nHuman: no"))).take 3) :=
  ⟨(C6_cleanResponse_amended ⟨true, [some (cs "Assistant: hi \nHuman: no")],
      ⟨0, by decide⟩, []⟩ [] (cs "q") (cs "Assistant: hi \nHuman: no") rfl rfl).1,
   (C6_cleanResponse_amended ⟨true, [some (cs "Assistant: hi \nHuman: no")],
      ⟨0, by decide⟩, []⟩ [] (cs "q") (cs "Assistant: hi \nHuman: no") rfl rfl).2.2
      3 (by decide)⟩

/-! ## Substring helper lemmas for C7 -/

lemma isPrefixOf_append_self (t b : List Char) : t.isPrefixOf (t ++ b) = true := by
  simp [List.isPrefixOf_iff_prefix]

lemma hasSubstr_append_mid (a t b : List Char) :
    hasSubstr (a ++ t ++ b) t = true := by
  unfold hasSubstr
  rw [List.any_eq_true]
  refine ⟨a.length, ?_, ?_⟩
  · rw [List.mem_range]
    simp only [List.length_append]
    omega
  · rw [List.append_assoc, List.drop_left]
    exact isPrefixOf_append_self t b

/-- C7: the fallback responder is exactly the first-match evaluation of
the fixed priority rule list greeting, "how are you", weather, time,
name, thanks, help, farewell, with the echo-back default; the time
response contains the clock reading, and both echo-back variants contain
the heard text. -/
theorem C7_fallback_priority (r : Fin 2) (timeStr text : List Char) :
    generateFallbackResponse r timeStr text =
      firstMatch (toLowerList text) (fallbackRules r timeStr)
        (defaultResponse r text) ∧
    hasSubstr (timeResponse timeStr) timeStr = true ∧
    hasSubstr (defaultResponse r text) text = true := by
  refine ⟨?_, ?_, ?_⟩
  · simp only [generateFallbackResponse, firstMatch, fallbackRules,
      List.any_cons, List.any_nil, Bool.or_false]
  · exact hasSubstr_append_mid (cs "The current time is ") timeStr (cs ".")
  · by_cases hr : r.val = 0
    · simp only [defaultResponse, pick2, hr, if_true, if_pos]
      exact hasSubstr_append_mid (cs "I heard you say: \"") text
        (cs "\". Let\x27s continue our language practice. What topic would you like to discuss next?")
    · simp only [defaultResponse, pick2, hr, if_false, if_neg]
      exact hasSubstr_append_mid (cs "Interesting! You mentioned \"") text
        (cs "\". What would you like to focus on next in our practice?")

/-- C9: a chunk's end event and its error event produce the same
advancement; before the last chunk the next chunk is handed to the
synthesizer with `speaking` unchanged (true during chunked playback);
after the last chunk's completion `speaking` becomes false and nothing
further is spoken; and the initial call speaks chunk 0. -/
theorem C9_chunked_playback (chunks : List (List Char)) (cur : Nat) (sp : Bool)
    (e : ChunkEvent) :
    (∀ e2, onChunkEvent chunks cur sp e = onChunkEvent chunks cur sp e2) ∧
    (cur + 1 < chunks.length →
      onChunkEvent chunks cur sp e = ⟨cur + 1, sp, chunks[cur + 1]?⟩) ∧
    (cur + 1 = chunks.length →
      onChunkEvent chunks cur sp e = ⟨cur + 1, false, none⟩) ∧
    (0 < chunks.length → speakNextChunk chunks 0 true = ⟨0, true, chunks[0]?⟩) := by
  refine ⟨fun _ => rfl, ?_, ?_, ?_⟩
  · intro h
    simp [onChunkEvent, speakNextChunk, h]
  · intro h
    simp [onChunkEvent, speakNextChunk, h]
  · intro h
    simp [speakNextChunk, h]

/-- C9 witness: a three-chunk playback advanced from chunk 0 (end event)
and finished from chunk 2 (error event). -/
theorem C9_chunked_playback_witness :
    onChunkEvent [cs "a.", cs "b.", cs "c."] 0 true .ended =
      ⟨1, true, [cs "a.", cs "b.", cs "c."][1]?⟩ ∧
    onChunkEvent [cs "a.", cs "b.", cs "c."] 2 true .errored = ⟨3, false, none⟩ :=
  ⟨(C9_chunked_playback [cs "a.", cs "b.", cs "c."] 0 true .ended).2.1 (by decide),
   (C9_chunked_playback [cs "a.", cs "b.", cs "c."] 2 true .errored).2.2.1 rfl⟩

end AiAssistant
